import Mathlib

/-!
Verification of the rbxts-neutron core against its specification.

The development shallowly embeds the three source files:

* `src/lifecycle.ts` — the lifecycle dispatch registry (`NeutronLifecycle`
  with `register` / `unregister` / `fire` in series or concurrent mode);
* `src/unnamed/part_000` (the provider core) — the singleton locator
  (`Provider`, `Neutron.get`, `Neutron.start`, `Neutron.awaitStart`,
  `Neutron.onStart`);
* `src/net.ts` — the endpoint namer (`generateNetworkName`,
  `setupRemoteObject`) and the server-side event wrappers.

Callbacks, threads, provider classes, provider instances and players are
identified by natural-number tokens (reference identity in the source).
Strings are embedded as Lean `String`s; the fingerprint string handed to the
checksum is embedded as its list of byte values.  Host-engine primitives
(`task.spawn`, `Random`, `Players.GetPlayers`) are modelled explicitly where
a claim depends on them; each such model is documented at its definition.
-/

namespace Neutron

/-- Enum `LifecycleBehavior` from src/lifecycle.ts: execution behavior of a
custom lifecycle (`Series` runs callbacks one-by-one, `Concurrent` spawns
each via `task.spawn`). -/
inductive LifecycleBehavior where
  | Series
  | Concurrent
deriving DecidableEq, Repr

/-- Structure `CallbackItem` from src/lifecycle.ts: a registered callback together
with its memory category label.  `T` is the callback-identity type. -/
structure CallbackItem (T : Type) where
  callback : T
  memoryCategory : String
deriving DecidableEq, Repr

/-- State of a `NeutronLifecycle` from src/lifecycle.ts.  The constructor
argument `behavior` selects which implementation `fire` dispatches to; the
three arrays are the registration list and the two meta-listener lists
(meta-listeners are identified by opaque tokens). -/
structure NeutronLifecycle (T : Type) where
  behavior : LifecycleBehavior
  callbacks : List (CallbackItem T)
  onRegisteredCallbacks : List ℕ
  onUnregisteredCallbacks : List ℕ
deriving DecidableEq, Repr

/-- The `NeutronLifecycle` constructor: empty registration lists, `fire`
bound according to `behavior`. -/
def NeutronLifecycle.new (T : Type) (behavior : LifecycleBehavior) : NeutronLifecycle T :=
  ⟨behavior, [], [], []⟩

/-- Method `NeutronLifecycle.register` from src/lifecycle.ts: pushes the
callback/category pair onto the `callbacks` array. -/
def NeutronLifecycle.register {T : Type} (lc : NeutronLifecycle T) (callback : T)
    (memoryCategory : String) : NeutronLifecycle T :=
  { lc with callbacks := lc.callbacks ++ [⟨callback, memoryCategory⟩] }

/-- The roblox-ts `Array.unorderedRemove(index)` runtime primitive used by
`unregister`: the element at `index` is overwritten with the last element
and the last slot is popped (no order preservation).  On an empty array it
does nothing. -/
def unorderedRemove {α : Type} (xs : List α) (i : ℕ) : List α :=
  match xs.getLast? with
  | none => []
  | some last => (xs.set i last).dropLast

/-- Method `NeutronLifecycle.unregister` from src/lifecycle.ts: finds the first
entry whose callback is reference-equal to the argument (`findIndex`); if
absent (`-1`, here: index = length) it returns unchanged, otherwise the
entry is removed with `unorderedRemove`. -/
def NeutronLifecycle.unregister {T : Type} [DecidableEq T] (lc : NeutronLifecycle T)
    (callback : T) : NeutronLifecycle T :=
  let index := lc.callbacks.findIdx fun item => item.callback == callback
  if index = lc.callbacks.length then lc
  else { lc with callbacks := unorderedRemove lc.callbacks index }

/-- One step the firer performs: a direct (blocking) invocation in series
mode, or a `task.spawn` in concurrent mode. -/
inductive FireStep (T : Type) where
  | invoke (callback : T) (memoryCategory : String)
  | spawnTask (callback : T) (memoryCategory : String)
deriving DecidableEq, Repr

/-- Method `NeutronLifecycle.fireSeries` from src/lifecycle.ts: invokes every
registered callback directly, one at a time, in array order. -/
def NeutronLifecycle.fireSeries {T : Type} (lc : NeutronLifecycle T) : List (FireStep T) :=
  lc.callbacks.map fun item => FireStep.invoke item.callback item.memoryCategory

/-- Method `NeutronLifecycle.fireConcurrent` from src/lifecycle.ts: `task.spawn`s
every registered callback, in array order. -/
def NeutronLifecycle.fireConcurrent {T : Type} (lc : NeutronLifecycle T) : List (FireStep T) :=
  lc.callbacks.map fun item => FireStep.spawnTask item.callback item.memoryCategory

/-- Method `NeutronLifecycle.fire`: dispatches to `fireSeries` or `fireConcurrent`
according to the behavior chosen at construction. -/
def NeutronLifecycle.fire {T : Type} (lc : NeutronLifecycle T) : List (FireStep T) :=
  match lc.behavior with
  | LifecycleBehavior.Series => lc.fireSeries
  | LifecycleBehavior.Concurrent => lc.fireConcurrent

/-- The callbacks a list of fire steps invokes directly (series mode). -/
def invokedCallbacks {T : Type} (steps : List (FireStep T)) : List T :=
  steps.filterMap fun s =>
    match s with
    | FireStep.invoke c _ => some c
    | FireStep.spawnTask _ _ => none

/-- The callbacks a list of fire steps hands to `task.spawn` (concurrent
mode). -/
def spawnedCallbacks {T : Type} (steps : List (FireStep T)) : List T :=
  steps.filterMap fun s =>
    match s with
    | FireStep.invoke _ _ => none
    | FireStep.spawnTask c _ => some c

/-- Modelled from the spec: the host scheduler's `task.spawn` "schedules a
task to run on a fresh cooperative stack and returns control to the caller
immediately", while a direct call returns only when the callback itself
returns.  `completes c = false` models a callback that suspends
indefinitely.  `fireReturnsControl` tells whether the firer itself regains
control: in series mode only if every registered callback completes, in
concurrent mode always. -/
def fireReturnsControl {T : Type} (lc : NeutronLifecycle T) (completes : T → Bool) : Bool :=
  match lc.behavior with
  | LifecycleBehavior.Series => lc.callbacks.all fun item => completes item.callback
  | LifecycleBehavior.Concurrent => true

/-- A register or unregister call in a usage history of a lifecycle. -/
inductive LifeOp where
  | reg (callback : ℕ) (memoryCategory : String)
  | unreg (callback : ℕ)
deriving DecidableEq, Repr

/-- Whether an operation is a registration. -/
def LifeOp.isReg : LifeOp → Bool
  | LifeOp.reg _ _ => true
  | LifeOp.unreg _ => false

/-- Run one usage operation against a lifecycle. -/
def applyOp (lc : NeutronLifecycle ℕ) : LifeOp → NeutronLifecycle ℕ
  | LifeOp.reg c mc => lc.register c mc
  | LifeOp.unreg c => lc.unregister c

/-- Run a usage history against a lifecycle. -/
def applyOps (lc : NeutronLifecycle ℕ) (ops : List LifeOp) : NeutronLifecycle ℕ :=
  ops.foldl applyOp lc

/-- A lifecycle constructed in series mode and driven by the given usage
history. -/
def seriesLifecycle (ops : List LifeOp) : NeutronLifecycle ℕ :=
  applyOps (NeutronLifecycle.new ℕ LifecycleBehavior.Series) ops

/-- Specification-side fold for survivor bookkeeping: a registration appends
the callback, an unregistration erases its first occurrence. -/
def survivorsStep (acc : List ℕ) : LifeOp → List ℕ
  | LifeOp.reg c _ => acc ++ [c]
  | LifeOp.unreg c => acc.erase c

/-- Written from the spec's words, for comparison with the code: "the
still-registered callbacks (the survivors) in their relative registration
order" after a usage history. -/
def survivorsSpec (ops : List LifeOp) : List ℕ :=
  ops.foldl survivorsStep []

/-- Process-wide state of the provider core (src/unnamed/part_000): the
start flag, the two queues drained by `start`, and for each provider class
the instance stored under its `PROVIDER_KEY` property (an association list
keyed by class identity, newest first). -/
structure NeutronState where
  started : Bool
  awaitStartThreads : List ℕ
  awaitCallbacks : List ℕ
  providers : List (ℕ × ℕ)
deriving DecidableEq, Repr

/-- The module-load state of the provider core: not started, empty queues,
no providers declared. -/
def initialState : NeutronState :=
  ⟨false, [], [], []⟩

/-- The `Provider()` decorator from src/unnamed/part_000: raises if Neutron
has started, otherwise runs `new providerClass()` and stores the instance
under the class's `PROVIDER_KEY`.  The constructor is modelled as a state
transformer `factory` on an external world `σ`, so that (non-)invocation of
the factory is observable in the returned world. -/
def Provider {σ : Type} (st : NeutronState) (providerClass : ℕ) (factory : σ → ℕ × σ)
    (world : σ) : Except String NeutronState × σ :=
  if st.started then
    (Except.error "[Neutron]: Cannot create provider after Proton has started", world)
  else
    let r := factory world
    (Except.ok { st with providers := (providerClass, r.1) :: st.providers }, r.2)

/-- Function `Neutron.isStarted` from src/unnamed/part_000. -/
def isStarted (st : NeutronState) : Bool :=
  st.started

/-- A task handed to the host scheduler by `start` / `onStart`: a queued
`onStart` callback or a thread parked in `awaitStart`. -/
inductive SpawnedTask where
  | callbackTask (id : ℕ)
  | threadTask (id : ℕ)
deriving DecidableEq, Repr

/-- Function `Neutron.start` from src/unnamed/part_000: a no-op when already
started; otherwise sets the flag, `task.spawn`s every queued callback and
then every parked thread, and clears both queues.  The second component
lists the tasks handed to the scheduler, in order. -/
def start (st : NeutronState) : NeutronState × List SpawnedTask :=
  if st.started then (st, [])
  else
    ({ st with started := true, awaitCallbacks := [], awaitStartThreads := [] },
      st.awaitCallbacks.map SpawnedTask.callbackTask
        ++ st.awaitStartThreads.map SpawnedTask.threadTask)

/-- Function `Neutron.awaitStart` from src/unnamed/part_000: returns immediately
when started (second component `true`), otherwise parks the calling thread
on the queue and yields (second component `false`). -/
def awaitStart (st : NeutronState) (thread : ℕ) : NeutronState × Bool :=
  if st.started then (st, true)
  else ({ st with awaitStartThreads := st.awaitStartThreads ++ [thread] }, false)

/-- Function `Neutron.onStart` from src/unnamed/part_000: spawns the callback
immediately when started, otherwise queues it. -/
def onStart (st : NeutronState) (callback : ℕ) : NeutronState × List SpawnedTask :=
  if st.started then (st, [SpawnedTask.callbackTask callback])
  else ({ st with awaitCallbacks := st.awaitCallbacks ++ [callback] }, [])

/-- Function `Neutron.get` from src/unnamed/part_000: reads the `PROVIDER_KEY`
property of the class; raises with a message naming the class when absent,
returns the stored instance otherwise. -/
def get (st : NeutronState) (providerClass : ℕ) : Except String ℕ :=
  match st.providers.lookup providerClass with
  | none =>
    Except.error ("[Neutron]: Failed to find provider \"" ++ toString providerClass ++ "\"")
  | some provider => Except.ok provider

/-- Modelled from the spec: the host engine's seeded generator — `rng s i`
is the i-th integer drawn by `Random.new(s):NextInteger(33, 126)`.  The
generator is an engine primitive and is therefore a parameter; the engine
contract (each draw lies in the requested closed range) is the predicate
`RandomInRange`. -/
def RandomInRange (rng : ℤ → ℕ → ℕ) : Prop :=
  ∀ s i, 33 ≤ rng s i ∧ rng s i ≤ 126

/-- The checksum inside `generateNetworkName` (src/net.ts line 138):
`data.byte(1, data.size()).reduce((a, v) => a + v)` — a byte-sum with no
initial accumulator, which raises on an empty string (hence `none`). -/
def checksum (data : List ℕ) : Option ℕ :=
  match data with
  | [] => none
  | b :: rest => some (rest.foldl (· + ·) b)

/-- The base identifier built by `generateNetworkName` before collision
resolution (src/net.ts lines 140-148): sixteen draws from a generator
seeded with `seed + sum`, turned into characters with `string.char`. -/
def baseNetworkName (rng : ℤ → ℕ → ℕ) (seed : ℤ) (sum : ℕ) : String :=
  (((List.range 16).map fun i => rng (seed + (sum : ℤ)) i).map Char.ofNat).asString

/-- The `while (networkNames.has(name))` loop of `generateNetworkName`
(src/net.ts lines 150-155): starting from suffix `iter`, returns the first
`baseName .. iter` not yet in the set.  The source loop is unbounded; here
it carries fuel, and `collisionLoop_eq_find` below shows that the fuel
`generateNetworkName` passes is always sufficient, so the embedding agrees
with the source loop. -/
def collisionLoop (networkNames : List String) (baseName : String) : ℕ → ℕ → String
  | 0, iter => baseName ++ Nat.repr iter
  | fuel + 1, iter =>
    let name := baseName ++ Nat.repr iter
    if name ∈ networkNames then collisionLoop networkNames baseName fuel (iter + 1)
    else name

/-- Function `generateNetworkName` from src/net.ts: checksum of the fingerprint
bytes, base name from the seeded generator, numeric-suffix collision
resolution against `networkNames`, and insertion of the final name into the
set.  Returns `none` for the empty fingerprint (the checksum raises). -/
def generateNetworkName (rng : ℤ → ℕ → ℕ) (seed : ℤ) (networkNames : List String)
    (data : List ℕ) : Option (String × List String) :=
  (checksum data).map fun sum =>
    let baseName := baseNetworkName rng seed sum
    let name :=
      if baseName ∈ networkNames then
        collisionLoop networkNames baseName (networkNames.length + 1) 0
      else baseName
    (name, name :: networkNames)

/-- The name computation of `setupRemoteObject` from src/net.ts (lines
162-169): the caller-supplied name is kept only when it is present and the
run is in Studio; otherwise a name is generated from the call-site
fingerprint.  The result is prefixed with `r/`.  Returns the wire name
together with the updated `networkNames` set (unchanged on the explicit
path, which never touches the set). -/
def setupRemoteName (rng : ℤ → ℕ → ℕ) (seed : ℤ) (isStudio : Bool) (name : Option String)
    (callSiteFingerprint : List ℕ) (networkNames : List String) :
    Option (String × List String) :=
  match name, isStudio with
  | some n, true => some ("r/" ++ n, networkNames)
  | some _, false =>
    (generateNetworkName rng seed networkNames callSiteFingerprint).map fun p =>
      ("r/" ++ p.1, p.2)
  | none, _ =>
    (generateNetworkName rng seed networkNames callSiteFingerprint).map fun p =>
      ("r/" ++ p.1, p.2)

/-- One endpoint construction on the generated-name path: run
`generateNetworkName` against the current name set and record the assigned
identifier.  An empty fingerprint (whose checksum raises in the source) is
skipped. -/
def generatedStep (rng : ℤ → ℕ → ℕ) (seed : ℤ) (acc : List String × List String)
    (fp : List ℕ) : List String × List String :=
  match generateNetworkName rng seed acc.2 fp with
  | none => acc
  | some (nm, names') => (acc.1 ++ [nm], names')

/-- A whole sequence of endpoint constructions whose names are all
generated (no explicit Studio name), starting from the empty name set:
returns the assigned identifiers in construction order together with the
final name set. -/
def runGeneratedConstructions (rng : ℤ → ℕ → ℕ) (seed : ℤ) (fps : List (List ℕ)) :
    List String × List String :=
  fps.foldl (generatedStep rng seed) ([], [])

/-- The `player` argument of the server-side `fire`: a single `Player`
instance or a Lua table of players (`typeOf(player) === "table"`). -/
inductive PlayerArg where
  | single (player : ℕ)
  | many (players : List ℕ)
deriving DecidableEq, Repr

/-- Method `NetEventServer.fire` from src/net.ts (lines 210-213): on a table
argument it iterates `Players.GetPlayers()` (the connected players, here
the parameter `connectedPlayers`) and fires to each of them, never reading
the table; on a single player it fires to that player.  The result lists
the players the remote event is fired to, in order. -/
def NetEventServer.fire (connectedPlayers : List ℕ) (player : PlayerArg) : List ℕ :=
  match player with
  | PlayerArg.many _ => connectedPlayers
  | PlayerArg.single p => [p]

/-- Method `UnreliableNetEventServer.fire` from src/net.ts (lines 362-365):
textually the same dispatch as `NetEventServer.fire`, over the unreliable
remote event. -/
def UnreliableNetEventServer.fire (connectedPlayers : List ℕ) (player : PlayerArg) : List ℕ :=
  match player with
  | PlayerArg.many _ => connectedPlayers
  | PlayerArg.single p => [p]

/-! ## Lifecycle registry lemmas -/

theorem unorderedRemove_perm {α : Type} : ∀ (xs : List α) (i : ℕ), i < xs.length →
    (unorderedRemove xs i).Perm (xs.eraseIdx i) := by
  intro xs
  induction xs with
  | nil => intro i h; simp at h
  | cons x xs ih =>
    intro i h
    match i, xs with
    | 0, [] =>
      simp [unorderedRemove]
    | 0, y :: ys =>
      have hne : (y :: ys : List α) ≠ [] := by simp
      have hlast : (x :: y :: ys).getLast? = some ((y :: ys).getLast hne) := by
        rw [List.getLast?_cons_cons, List.getLast?_eq_getLast]
      simp only [unorderedRemove, hlast, List.set_cons_zero, List.eraseIdx_cons_zero]
      rw [List.dropLast_cons_of_ne_nil hne]
      have hsplit : (y :: ys).dropLast ++ [(y :: ys).getLast hne] = y :: ys :=
        List.dropLast_append_getLast hne
      have hperm := (List.perm_append_singleton ((y :: ys).getLast hne) (y :: ys).dropLast).symm
      rw [hsplit] at hperm
      exact hperm
    | j + 1, y :: ys =>
      have hj : j < (y :: ys).length := by simpa using Nat.lt_of_succ_lt_succ h
      have hne : (y :: ys : List α) ≠ [] := by simp
      have hlast : (x :: y :: ys).getLast? = (y :: ys).getLast? := List.getLast?_cons_cons
      have hlast2 : (y :: ys).getLast? = some ((y :: ys).getLast hne) :=
        List.getLast?_eq_getLast _ hne
      have hsetne : (y :: ys).set j ((y :: ys).getLast hne) ≠ [] := by
        intro hc
        have := congrArg List.length hc
        simp at this
      simp only [unorderedRemove, hlast, hlast2, List.set_cons_succ,
        List.eraseIdx_cons_succ]
      rw [List.dropLast_cons_of_ne_nil hsetne]
      refine List.Perm.cons x ?_
      have := ih j hj
      simpa only [unorderedRemove, hlast2] using this

theorem eraseIdx_findIdx {α : Type} (p : α → Bool) :
    ∀ xs : List α, xs.eraseIdx (xs.findIdx p) = xs.eraseP p := by
  intro xs
  induction xs with
  | nil => rfl
  | cons x xs ih =>
    by_cases hx : p x
    · simp [List.findIdx_cons, List.eraseP_cons, hx]
    · simp only [List.findIdx_cons, List.eraseP_cons, hx, cond_false,
        List.eraseIdx_cons_succ]
      rw [ih]

theorem unregister_callbacks_perm (lc : NeutronLifecycle ℕ) (c : ℕ) :
    ((lc.unregister c).callbacks.map CallbackItem.callback).Perm
      ((lc.callbacks.map CallbackItem.callback).erase c) := by
  unfold NeutronLifecycle.unregister
  set p : CallbackItem ℕ → Bool := fun item => item.callback == c with hp
  by_cases hidx : lc.callbacks.findIdx p = lc.callbacks.length
  · have hnomem : c ∉ lc.callbacks.map CallbackItem.callback := by
      intro hmem
      rcases List.mem_map.1 hmem with ⟨item, hitem, hcb⟩
      have := (List.findIdx_eq_length.1 hidx) item hitem
      rw [hp] at this
      simp [hcb] at this
    rw [List.erase_of_not_mem hnomem]
    simp [hidx]
  · simp only [hidx, if_neg hidx]
    have hlt : lc.callbacks.findIdx p < lc.callbacks.length :=
      Nat.lt_of_le_of_ne (List.findIdx_le_length p) hidx
    have h1 := (unorderedRemove_perm lc.callbacks (lc.callbacks.findIdx p) hlt).map
      CallbackItem.callback
    rw [eraseIdx_findIdx] at h1
    have h2 : (lc.callbacks.eraseP p).map CallbackItem.callback
        = (lc.callbacks.map CallbackItem.callback).erase c := by
      rw [List.erase_eq_eraseP]
      rw [List.eraseP_map]
      have hq : ((fun x : ℕ => c == x) ∘ CallbackItem.callback) = p := by
        funext item
        rw [hp]
        simp only [Function.comp_apply]
        exact Bool.beq_comm
      rw [hq]
    rw [h2] at h1
    exact h1

theorem applyOps_callbacks_perm :
    ∀ (ops : List LifeOp) (lc : NeutronLifecycle ℕ) (acc : List ℕ),
    (lc.callbacks.map CallbackItem.callback).Perm acc →
    ((applyOps lc ops).callbacks.map CallbackItem.callback).Perm
      (ops.foldl survivorsStep acc) := by
  intro ops
  induction ops with
  | nil => intro lc acc h; simpa [applyOps] using h
  | cons op ops ih =>
    intro lc acc h
    match op with
    | LifeOp.reg c mc =>
      have hstep : ((lc.register c mc).callbacks.map CallbackItem.callback).Perm (acc ++ [c]) := by
        simp only [NeutronLifecycle.register, List.map_append, List.map_cons, List.map_nil]
        exact h.append_right [c]
      exact ih _ _ hstep
    | LifeOp.unreg c =>
      have hstep : ((lc.unregister c).callbacks.map CallbackItem.callback).Perm (acc.erase c) :=
        (unregister_callbacks_perm lc c).trans (h.erase c)
      exact ih _ _ hstep

theorem applyOps_callbacks_eq :
    ∀ (ops : List LifeOp) (lc : NeutronLifecycle ℕ) (acc : List ℕ),
    (∀ op ∈ ops, op.isReg = true) →
    lc.callbacks.map CallbackItem.callback = acc →
    (applyOps lc ops).callbacks.map CallbackItem.callback = ops.foldl survivorsStep acc := by
  intro ops
  induction ops with
  | nil => intro lc acc _ h; simpa [applyOps] using h
  | cons op ops ih =>
    intro lc acc hreg h
    match op with
    | LifeOp.reg c mc =>
      refine ih _ _ (fun o ho => hreg o (List.mem_cons_of_mem _ ho)) ?_
      simp only [applyOp, survivorsStep, NeutronLifecycle.register, List.map_append,
        List.map_cons, List.map_nil, h]
    | LifeOp.unreg c =>
      have := hreg (LifeOp.unreg c) (List.mem_cons_self _ _)
      simp [LifeOp.isReg] at this

theorem invokedCallbacks_fireSeries {T : Type} (l : List (CallbackItem T)) :
    invokedCallbacks (l.map fun item => FireStep.invoke item.callback item.memoryCategory)
      = l.map CallbackItem.callback := by
  unfold invokedCallbacks
  induction l with
  | nil => rfl
  | cons x xs ih =>
    simp only [List.map_cons, List.filterMap_cons]
    simpa using ih

theorem invokedCallbacks_fire_series (lc : NeutronLifecycle ℕ)
    (h : lc.behavior = LifecycleBehavior.Series) :
    invokedCallbacks lc.fire = lc.callbacks.map CallbackItem.callback := by
  rw [NeutronLifecycle.fire, h]
  exact invokedCallbacks_fireSeries lc.callbacks

theorem spawnedCallbacks_fireConcurrent {T : Type} (l : List (CallbackItem T)) :
    spawnedCallbacks (l.map fun item => FireStep.spawnTask item.callback item.memoryCategory)
      = l.map CallbackItem.callback := by
  unfold spawnedCallbacks
  induction l with
  | nil => rfl
  | cons x xs ih =>
    simp only [List.map_cons, List.filterMap_cons]
    simpa using ih

theorem seriesLifecycle_behavior (ops : List LifeOp) :
    (seriesLifecycle ops).behavior = LifecycleBehavior.Series := by
  unfold seriesLifecycle
  have : ∀ (l : List LifeOp) (lc : NeutronLifecycle ℕ),
      (applyOps lc l).behavior = lc.behavior := by
    intro l
    induction l with
    | nil => intro lc; rfl
    | cons op l ih =>
      intro lc
      rw [applyOps, List.foldl_cons]
      have := ih (applyOp lc op)
      rw [applyOps] at this
      rw [this]
      match op with
      | LifeOp.reg c mc => rfl
      | LifeOp.unreg c =>
        simp only [applyOp, NeutronLifecycle.unregister]
        split <;> rfl
  exact this ops _

/-! ## Claim C1 -/

/-- C1, as stated, is false on the code: after `register c1; register c2;
register c3; unregister c1` on a series-mode lifecycle, `fire` invokes the
survivors as `[c3, c2]`, while their relative registration order is
`[c2, c3]` — `unregister` removes with the order-destroying
`unorderedRemove`, which moves the last entry into the freed slot. -/
theorem C1_counterexample :
    invokedCallbacks (NeutronLifecycle.fire (seriesLifecycle
        [LifeOp.reg 1 "a", LifeOp.reg 2 "b", LifeOp.reg 3 "c", LifeOp.unreg 1])) = [3, 2] ∧
    survivorsSpec [LifeOp.reg 1 "a", LifeOp.reg 2 "b", LifeOp.reg 3 "c", LifeOp.unreg 1]
      = [2, 3] ∧
    ([3, 2] : List ℕ) ≠ [2, 3] := by
  refine ⟨by decide, by decide, by decide⟩

/-- C1 (amended): for every sequence of register and unregister calls on a
series-mode lifecycle, a subsequent fire invokes exactly the
still-registered callbacks (the same multiset as the survivors); it invokes
them in their relative registration order whenever the sequence contains no
unregister call (an unregister of a non-final callback may reorder the
survivors, because removal is by swap-with-last). -/
theorem C1_series_fire_invokes_survivors (ops : List LifeOp) :
    (invokedCallbacks (NeutronLifecycle.fire (seriesLifecycle ops))).Perm
      (survivorsSpec ops) ∧
    ((∀ op ∈ ops, op.isReg = true) →
      invokedCallbacks (NeutronLifecycle.fire (seriesLifecycle ops)) = survivorsSpec ops) := by
  constructor
  · rw [invokedCallbacks_fire_series _ (seriesLifecycle_behavior ops)]
    exact applyOps_callbacks_perm ops _ [] (by simp [NeutronLifecycle.new])
  · intro hreg
    rw [invokedCallbacks_fire_series _ (seriesLifecycle_behavior ops)]
    exact applyOps_callbacks_eq ops _ [] hreg (by simp [NeutronLifecycle.new])

/-- Witness for C1 (amended) at the concrete history
`register 1 "a"; register 2 "b"`. -/
theorem C1_series_fire_invokes_survivors_witness :
    (invokedCallbacks (NeutronLifecycle.fire (seriesLifecycle
        [LifeOp.reg 1 "a", LifeOp.reg 2 "b"]))).Perm
      (survivorsSpec [LifeOp.reg 1 "a", LifeOp.reg 2 "b"]) ∧
    invokedCallbacks (NeutronLifecycle.fire (seriesLifecycle
        [LifeOp.reg 1 "a", LifeOp.reg 2 "b"]))
      = survivorsSpec [LifeOp.reg 1 "a", LifeOp.reg 2 "b"] :=
  ⟨(C1_series_fire_invokes_survivors _).1,
   (C1_series_fire_invokes_survivors _).2 (by decide)⟩

/-! ## Claim C8 -/

/-- C8: for every lifecycle constructed in concurrent mode, `fire` hands
every registered callback to `task.spawn` (in registration order) and the
firer regains control unconditionally — in particular also when some
callback never completes (`completes` arbitrary, e.g. constantly false). -/
theorem C8_concurrent_fire_never_blocks {T : Type} (lc : NeutronLifecycle T)
    (h : lc.behavior = LifecycleBehavior.Concurrent) (completes : T → Bool) :
    fireReturnsControl lc completes = true ∧
    spawnedCallbacks lc.fire = lc.callbacks.map CallbackItem.callback := by
  constructor
  · simp [fireReturnsControl, h]
  · rw [NeutronLifecycle.fire, h]
    exact spawnedCallbacks_fireConcurrent lc.callbacks

/-- Witness for C8: a concurrent lifecycle with one registered callback
that suspends indefinitely (`completes` constantly false); the firer still
returns and the callback is spawned. -/
theorem C8_concurrent_fire_never_blocks_witness :
    fireReturnsControl ((NeutronLifecycle.new ℕ LifecycleBehavior.Concurrent).register 0 "x")
      (fun _ => false) = true ∧
    spawnedCallbacks ((NeutronLifecycle.new ℕ LifecycleBehavior.Concurrent).register 0 "x").fire
      = [0] := by
  have h := C8_concurrent_fire_never_blocks
    ((NeutronLifecycle.new ℕ LifecycleBehavior.Concurrent).register 0 "x") rfl (fun _ => false)
  exact ⟨h.1, by rw [h.2]; rfl⟩

/-! ## Claim C5 -/

/-- C5: `Neutron.get` raises exactly when no instance is stored for the
requested class identity, and the raised message names that identity; after
a successful `Provider` declaration for the identity, `get` returns exactly
the instance the factory produced, and — `get` being a pure read of the
state — every repeated call returns that same instance. -/
theorem C5_get_contract (st : NeutronState) (providerClass : ℕ) :
    ((∃ e, get st providerClass = Except.error e) ↔
      st.providers.lookup providerClass = none) ∧
    (st.providers.lookup providerClass = none →
      get st providerClass = Except.error
        ("[Neutron]: Failed to find provider \"" ++ toString providerClass ++ "\"")) ∧
    (∀ (σ : Type) (factory : σ → ℕ × σ) (world : σ) (st' : NeutronState) (world' : σ),
      Provider st providerClass factory world = (Except.ok st', world') →
      get st' providerClass = Except.ok (factory world).1) := by
  refine ⟨⟨?_, ?_⟩, ?_, ?_⟩
  · rintro ⟨e, he⟩
    unfold get at he
    cases hl : st.providers.lookup providerClass with
    | none => rfl
    | some v => rw [hl] at he; exact absurd he (by simp)
  · intro hl
    exact ⟨_, by unfold get; rw [hl]⟩
  · intro hl
    unfold get
    rw [hl]
  · intro σ factory world st' world' hp
    unfold Provider at hp
    by_cases hs : st.started
    · rw [if_pos hs] at hp
      exact absurd (congrArg Prod.fst hp) (by simp)
    · rw [if_neg hs] at hp
      have hst : st' = { st with providers := (providerClass, (factory world).1) :: st.providers } := by
        have := congrArg Prod.fst hp
        simp at this
        exact this.symm
      subst hst
      unfold get
      simp [List.lookup]

/-- Witness for C5: on the initial state, `get 5` raises naming class 5;
after declaring class 5 with a factory returning instance 77, `get 5`
returns 77. -/
theorem C5_get_contract_witness :
    get initialState 5 = Except.error "[Neutron]: Failed to find provider \"5\"" ∧
    get { initialState with providers := [(5, 77)] } 5 = Except.ok 77 := by
  constructor
  · exact (C5_get_contract initialState 5).2.1 rfl
  · exact (C5_get_contract initialState 5).2.2 ℕ (fun w => (77, w + 1)) 0
      { initialState with providers := [(5, 77)] } 1 rfl

/-! ## Claim C6 -/

/-- C6: declaring a provider after the start flag is set raises immediately
with the usage-order message, produces no new registry state (the error
carries no state, so the caller's registry is exactly the pre-call one),
and never invokes the factory — the external world comes back untouched. -/
theorem C6_declare_after_start_raises {σ : Type} (st : NeutronState) (providerClass : ℕ)
    (factory : σ → ℕ × σ) (world : σ) (h : st.started = true) :
    Provider st providerClass factory world =
      (Except.error "[Neutron]: Cannot create provider after Proton has started", world) := by
  unfold Provider
  rw [if_pos h]

/-- Witness for C6: declaring class 9 on a started state with a
world-mutating factory raises and leaves the world at its old value 0. -/
theorem C6_declare_after_start_raises_witness :
    Provider { initialState with started := true } 9 (fun w => (1, w + 1)) (0 : ℕ) =
      (Except.error "[Neutron]: Cannot create provider after Proton has started", 0) :=
  C6_declare_after_start_raises { initialState with started := true } 9 _ 0 rfl

/-! ## Claim C7 -/

/-- C7: `start` is idempotent.  The first call flips the flag from false to
true, hands every queued `onStart` callback and then every parked
`awaitStart` thread to `task.spawn`, and clears both queues; a call on a
started state changes nothing and spawns nothing; hence after any call the
flag is true and a second call is a strict no-op, so the flag transitions
false to true exactly once. -/
theorem C7_start_idempotent (st : NeutronState) :
    (st.started = false →
      start st =
        ({ st with started := true, awaitCallbacks := [], awaitStartThreads := [] },
          st.awaitCallbacks.map SpawnedTask.callbackTask
            ++ st.awaitStartThreads.map SpawnedTask.threadTask)) ∧
    (st.started = true → start st = (st, [])) ∧
    ((start st).1.started = true ∧ start (start st).1 = ((start st).1, [])) := by
  refine ⟨?_, ?_, ?_, ?_⟩
  · intro h
    unfold start
    rw [if_neg (by simp [h])]
  · intro h
    unfold start
    rw [if_pos h]
  · unfold start
    by_cases h : st.started
    · rw [if_pos h]; exact h
    · rw [if_neg h]
  · unfold start
    by_cases h : st.started
    · simp [h]
    · simp [h]

/-- Witness for C7 on a concrete unstarted state with queued callback 20
and parked threads 10 and 11, and on the started state it produces. -/
theorem C7_start_idempotent_witness :
    start ⟨false, [10, 11], [20], []⟩ =
      (⟨true, [], [], []⟩,
        [SpawnedTask.callbackTask 20, SpawnedTask.threadTask 10, SpawnedTask.threadTask 11]) ∧
    start (⟨true, [], [], []⟩ : NeutronState) = (⟨true, [], [], []⟩, []) := by
  constructor
  · exact (C7_start_idempotent ⟨false, [10, 11], [20], []⟩).1 rfl
  · exact (C7_start_idempotent ⟨true, [], [], []⟩).2.1 rfl

/-! ## Endpoint namer lemmas

The collision loop appends the decimal representation of an increasing
counter, so its candidates are pairwise distinct and the loop provably
terminates within the fuel `generateNetworkName` provides.  That needs the
injectivity of `Nat.repr`, proved here through `Nat.digits`. -/

theorem toDigitsCore_eq_digits (b : ℕ) (hb : 1 < b) :
    ∀ (fuel n : ℕ) (acc : List Char), 0 < n → n ≤ fuel →
      Nat.toDigitsCore b fuel n acc
        = ((Nat.digits b n).map Nat.digitChar).reverse ++ acc := by
  intro fuel
  induction fuel with
  | zero => intro n acc hn hf; omega
  | succ fuel ih =>
    intro n acc hn hf
    simp only [Nat.toDigitsCore]
    by_cases hq : n / b = 0
    · rw [if_pos hq]
      rw [Nat.digits_def' hb hn, hq, Nat.digits_zero]
      simp
    · rw [if_neg hq]
      have hq' : 0 < n / b := Nat.pos_of_ne_zero hq
      have hlt : n / b < n := Nat.div_lt_self hn hb
      rw [ih (n / b) _ hq' (by omega)]
      rw [Nat.digits_def' hb hn]
      simp

theorem repr_eq_digits (n : ℕ) (hn : 0 < n) :
    Nat.repr n = (((Nat.digits 10 n).map Nat.digitChar).reverse).asString := by
  show (Nat.toDigits 10 n).asString = _
  unfold Nat.toDigits
  rw [toDigitsCore_eq_digits 10 (by norm_num) (n + 1) n [] hn (by omega)]
  simp

theorem digitChar_inj_fin : ∀ a b : Fin 10, Nat.digitChar a = Nat.digitChar b → a = b := by
  decide

theorem map_digitChar_inj : ∀ l1 l2 : List ℕ, (∀ d ∈ l1, d < 10) → (∀ d ∈ l2, d < 10) →
    l1.map Nat.digitChar = l2.map Nat.digitChar → l1 = l2 := by
  intro l1
  induction l1 with
  | nil =>
    intro l2 _ _ h
    cases l2 with
    | nil => rfl
    | cons b l2 => simp at h
  | cons a l1 ih =>
    intro l2 h1 h2 h
    cases l2 with
    | nil => simp at h
    | cons b l2 =>
      simp only [List.map_cons, List.cons.injEq] at h
      have ha : a < 10 := h1 a (List.mem_cons_self a l1)
      have hb : b < 10 := h2 b (List.mem_cons_self b l2)
      have hab : a = b := by
        have := digitChar_inj_fin ⟨a, ha⟩ ⟨b, hb⟩ h.1
        exact congrArg Fin.val this
      rw [hab, ih l2 (fun d hd => h1 d (List.mem_cons_of_mem a hd))
        (fun d hd => h2 d (List.mem_cons_of_mem b hd)) h.2]

theorem string_data_inj (s t : String) (h : s.data = t.data) : s = t := by
  cases s
  cases t
  exact congrArg String.mk h

theorem asString_inj (l1 l2 : List Char) (h : l1.asString = l2.asString) : l1 = l2 := by
  have h2 : l1 = l2 := congrArg String.data h
  exact h2

theorem repr_pos_ne_zero (n : ℕ) (hn : 0 < n) : Nat.repr n ≠ Nat.repr 0 := by
  intro h
  rw [repr_eq_digits n hn] at h
  have h1 : ((Nat.digits 10 n).map Nat.digitChar).reverse = ['0'] := asString_inj _ _ h
  have h2 : (Nat.digits 10 n).map Nat.digitChar = ['0'] := by
    have := congrArg List.reverse h1
    simpa using this
  have h3 : Nat.digits 10 n = [0] := by
    refine map_digitChar_inj (Nat.digits 10 n) [0]
      (fun d hd => Nat.digits_lt_base (by norm_num) hd) (by simp) ?_
    simpa [Nat.digitChar] using h2
  have h4 := Nat.ofDigits_digits 10 n
  rw [h3] at h4
  simp [Nat.ofDigits] at h4
  omega

theorem repr_injective : ∀ m n : ℕ, Nat.repr m = Nat.repr n → m = n := by
  intro m n h
  rcases Nat.eq_zero_or_pos m with hm | hm
  · rcases Nat.eq_zero_or_pos n with hn | hn
    · omega
    · subst hm; exact absurd h.symm (repr_pos_ne_zero n hn)
  · rcases Nat.eq_zero_or_pos n with hn | hn
    · subst hn; exact absurd h (repr_pos_ne_zero m hm)
    · rw [repr_eq_digits m hm, repr_eq_digits n hn] at h
      have h1 := asString_inj _ _ h
      have h2 : (Nat.digits 10 m).map Nat.digitChar = (Nat.digits 10 n).map Nat.digitChar := by
        have := congrArg List.reverse h1
        simpa using this
      have h3 : Nat.digits 10 m = Nat.digits 10 n :=
        map_digitChar_inj _ _ (fun d hd => Nat.digits_lt_base (by norm_num) hd)
          (fun d hd => Nat.digits_lt_base (by norm_num) hd) h2
      have h4 := Nat.ofDigits_digits 10 m
      rw [h3, Nat.ofDigits_digits] at h4
      omega

theorem append_repr_inj (base : String) (k1 k2 : ℕ)
    (h : base ++ Nat.repr k1 = base ++ Nat.repr k2) : k1 = k2 := by
  have hd := congrArg String.data h
  rw [String.data_append, String.data_append] at hd
  have hc : (Nat.repr k1).data = (Nat.repr k2).data := List.append_cancel_left hd
  exact repr_injective k1 k2 (string_data_inj _ _ hc)

theorem exists_free_suffix (networkNames : List String) (base : String) :
    ∃ k, k ≤ networkNames.length ∧ base ++ Nat.repr k ∉ networkNames := by
  by_contra hc
  push_neg at hc
  have hnd : ((List.range (networkNames.length + 1)).map
      fun k => base ++ Nat.repr k).Nodup := by
    refine List.Nodup.map ?_ (List.nodup_range _)
    intro k1 k2 hk
    exact append_repr_inj base k1 k2 hk
  have hsub : ((List.range (networkNames.length + 1)).map
      fun k => base ++ Nat.repr k).toFinset ⊆ networkNames.toFinset := by
    intro s hs
    rw [List.mem_toFinset] at hs ⊢
    rcases List.mem_map.1 hs with ⟨k, hk, rfl⟩
    exact hc k (Nat.lt_succ_iff.1 (List.mem_range.1 hk))
  have hcard := Finset.card_le_card hsub
  have hlen : ((List.range (networkNames.length + 1)).map
      fun k => base ++ Nat.repr k).toFinset.card = networkNames.length + 1 := by
    rw [List.card_toFinset, List.dedup_eq_self.2 hnd]
    simp
  have := List.toFinset_card_le networkNames
  omega

theorem collisionLoop_eq (networkNames : List String) (base : String) :
    ∀ (fuel iter k : ℕ), iter ≤ k → k - iter < fuel →
    (∀ j, iter ≤ j → j < k → base ++ Nat.repr j ∈ networkNames) →
    base ++ Nat.repr k ∉ networkNames →
    collisionLoop networkNames base fuel iter = base ++ Nat.repr k := by
  intro fuel
  induction fuel with
  | zero => intro iter k h1 h2 _ _; omega
  | succ fuel ih =>
    intro iter k h1 h2 hall hfree
    simp only [collisionLoop]
    rcases Nat.eq_or_lt_of_le h1 with heq | hlt
    · subst heq
      rw [if_neg hfree]
    · rw [if_pos (hall iter le_rfl hlt)]
      exact ih (iter + 1) k hlt (by omega) (fun j hj1 hj2 => hall j (by omega) hj2) hfree

theorem collisionLoop_least (networkNames : List String) (base : String) :
    ∃ k, (∀ j, j < k → base ++ Nat.repr j ∈ networkNames) ∧
      base ++ Nat.repr k ∉ networkNames ∧
      collisionLoop networkNames base (networkNames.length + 1) 0 = base ++ Nat.repr k := by
  obtain ⟨kb, hkb, hkbfree⟩ := exists_free_suffix networkNames base
  have hex : ∃ j, base ++ Nat.repr j ∉ networkNames := ⟨kb, hkbfree⟩
  refine ⟨Nat.find hex, ?_, Nat.find_spec hex, ?_⟩
  · intro j hj
    exact not_not.mp (Nat.find_min hex hj)
  · have hle : Nat.find hex ≤ kb := Nat.find_min' hex hkbfree
    exact collisionLoop_eq networkNames base (networkNames.length + 1) 0 (Nat.find hex)
      (Nat.zero_le _) (by omega)
      (fun j _ hj2 => not_not.mp (Nat.find_min hex hj2)) (Nat.find_spec hex)

theorem generateNetworkName_some (rng : ℤ → ℕ → ℕ) (seed : ℤ) (networkNames : List String)
    (data : List ℕ) (sum : ℕ) (hck : checksum data = some sum) :
    generateNetworkName rng seed networkNames data =
      some (if baseNetworkName rng seed sum ∈ networkNames
              then collisionLoop networkNames (baseNetworkName rng seed sum)
                (networkNames.length + 1) 0
              else baseNetworkName rng seed sum,
            (if baseNetworkName rng seed sum ∈ networkNames
              then collisionLoop networkNames (baseNetworkName rng seed sum)
                (networkNames.length + 1) 0
              else baseNetworkName rng seed sum) :: networkNames) := by
  unfold generateNetworkName
  rw [hck]
  rfl

theorem generateNetworkName_fresh (rng : ℤ → ℕ → ℕ) (seed : ℤ) (networkNames : List String)
    (data : List ℕ) (nm : String) (names' : List String)
    (h : generateNetworkName rng seed networkNames data = some (nm, names')) :
    nm ∉ networkNames ∧ names' = nm :: networkNames := by
  cases hck : checksum data with
  | none =>
    unfold generateNetworkName at h
    rw [hck] at h
    simp at h
  | some sum =>
    rw [generateNetworkName_some rng seed networkNames data sum hck] at h
    have hsome := Option.some.inj h
    have h1 := congrArg Prod.fst hsome
    have h2 := congrArg Prod.snd hsome
    simp only at h1 h2
    constructor
    · rw [← h1]
      by_cases hb : baseNetworkName rng seed sum ∈ networkNames
      · rw [if_pos hb]
        obtain ⟨k, _, hkfree, hkeq⟩ := collisionLoop_least networkNames
          (baseNetworkName rng seed sum)
        rw [hkeq]
        exact hkfree
      · rw [if_neg hb]
        exact hb
    · rw [← h2, ← h1]

theorem runGenerated_invariant (rng : ℤ → ℕ → ℕ) (seed : ℤ) :
    ∀ (fps : List (List ℕ)) (assigned names : List String),
    assigned.Nodup → (∀ a ∈ assigned, a ∈ names) →
    (fps.foldl (generatedStep rng seed) (assigned, names)).1.Nodup ∧
    (∀ a ∈ (fps.foldl (generatedStep rng seed) (assigned, names)).1,
      a ∈ (fps.foldl (generatedStep rng seed) (assigned, names)).2) := by
  intro fps
  induction fps with
  | nil => intro assigned names h1 h2; exact ⟨h1, h2⟩
  | cons fp fps ih =>
    intro assigned names h1 h2
    rw [List.foldl_cons]
    cases hg : generateNetworkName rng seed names fp with
    | none =>
      have hstep : generatedStep rng seed (assigned, names) fp = (assigned, names) := by
        unfold generatedStep
        rw [hg]
      rw [hstep]
      exact ih assigned names h1 h2
    | some p =>
      obtain ⟨nm, names'⟩ := p
      obtain ⟨hfresh, hnames⟩ := generateNetworkName_fresh rng seed names fp nm names' hg
      have hstep : generatedStep rng seed (assigned, names) fp = (assigned ++ [nm], names') := by
        unfold generatedStep
        rw [hg]
      rw [hstep]
      refine ih _ _ ?_ ?_
      · rw [List.nodup_append]
        refine ⟨h1, List.nodup_singleton nm, ?_⟩
        intro a ha hb
        rw [List.mem_singleton] at hb
        subst hb
        exact hfresh (h2 a ha)
      · intro a ha
        rw [hnames]
        rcases List.mem_append.1 ha with ha | ha
        · exact List.mem_cons_of_mem nm (h2 a ha)
        · rw [List.mem_singleton] at ha
          rw [ha]
          exact List.mem_cons_self nm names

theorem toNat_ofNat_of_range (n : ℕ) (h1 : 33 ≤ n) (h2 : n ≤ 126) :
    (Char.ofNat n).toNat = n := by
  have hv : n.isValidChar := Or.inl (by omega)
  unfold Char.ofNat
  rw [dif_pos hv]
  rfl

theorem baseNetworkName_length (rng : ℤ → ℕ → ℕ) (seed : ℤ) (sum : ℕ) :
    (baseNetworkName rng seed sum).length = 16 := by
  unfold baseNetworkName
  show (((List.range 16).map fun i => rng (seed + (sum : ℤ)) i).map Char.ofNat).length = 16
  simp

/-! ## Claim C2 -/

/-- C2, as stated, is false on the code: with an explicit caller-supplied
name in Studio, `setupRemoteObject` uses the name directly and never
consults or updates the `networkNames` set, so two endpoints constructed in
sequence with the explicit name "foo" both receive the wire identifier
`r/foo`, and the name set after the first construction (here `[]`) is the
very set the second construction runs against. -/
theorem C2_counterexample :
    setupRemoteName (fun _ _ => 33) 0 true (some "foo") [1] [] = some ("r/foo", []) ∧
    setupRemoteName (fun _ _ => 33) 0 true (some "foo") [2] [] = some ("r/foo", []) :=
  ⟨rfl, rfl⟩

/-- C2 (amended): for every sequence of endpoint constructions whose wire
identifiers are generated (no explicit name kept, i.e. name omitted or a
non-Studio run), the assigned identifiers are pairwise distinct — the
generated name is always fresh against the `networkNames` set, which
records every generated name.  The uniqueness invariant does not extend to
caller-supplied explicit names in Studio, which bypass the set entirely. -/
theorem C2_generated_names_distinct (rng : ℤ → ℕ → ℕ) (seed : ℤ) (fps : List (List ℕ)) :
    (runGeneratedConstructions rng seed fps).1.Nodup :=
  (runGenerated_invariant rng seed fps [] [] List.nodup_nil (by simp)).1

/-! ## Claim C3 -/

/-- C3: for every seed and non-empty fingerprint, the checksum is the
byte-sum of the fingerprint and the base identifier is a deterministic
function of seed plus that checksum: it has exactly 16 code points, all in
the printable range 33..126 (given the engine contract on
`NextInteger(33, 126)`), and two derivations with equal seed-plus-checksum
inputs — in particular two independent derivations with the same seed and
the same fingerprint — produce the same base identifier. -/
theorem C3_base_identifier (rng : ℤ → ℕ → ℕ) (hr : RandomInRange rng) (seed : ℤ)
    (d1 d2 : List ℕ) (h1 : d1 ≠ []) (hsum : checksum d1 = checksum d2) :
    (∃ sum, checksum d1 = some sum) ∧
    (∀ sum, checksum d1 = some sum →
      (baseNetworkName rng seed sum).length = 16 ∧
      ∀ c ∈ (baseNetworkName rng seed sum).data, 33 ≤ c.toNat ∧ c.toNat ≤ 126) ∧
    (∀ sum1 sum2, checksum d1 = some sum1 → checksum d2 = some sum2 →
      baseNetworkName rng seed sum1 = baseNetworkName rng seed sum2) := by
  refine ⟨?_, ?_, ?_⟩
  · cases d1 with
    | nil => exact absurd rfl h1
    | cons b rest => exact ⟨_, rfl⟩
  · intro sum _
    refine ⟨baseNetworkName_length rng seed sum, ?_⟩
    intro c hc
    have hc' : c ∈ ((List.range 16).map fun i => rng (seed + (sum : ℤ)) i).map Char.ofNat := hc
    rcases List.mem_map.1 hc' with ⟨v, hv, rfl⟩
    rcases List.mem_map.1 hv with ⟨i, _, rfl⟩
    obtain ⟨hlo, hhi⟩ := hr (seed + (sum : ℤ)) i
    rw [toNat_ofNat_of_range _ hlo hhi]
    exact ⟨hlo, hhi⟩
  · intro sum1 sum2 hs1 hs2
    rw [hs1] at hsum
    rw [hs2] at hsum
    rw [Option.some.inj hsum]

/-- Witness for C3 with the constant in-range generator, seed 0 and the
single-byte fingerprint `[7]` for both derivations. -/
theorem C3_base_identifier_witness :
    (∃ sum, checksum [7] = some sum) ∧
    ((baseNetworkName (fun _ _ => 33) 0 7).length = 16 ∧
      ∀ c ∈ (baseNetworkName (fun _ _ => 33) 0 7).data, 33 ≤ c.toNat ∧ c.toNat ≤ 126) ∧
    baseNetworkName (fun _ _ => 33) 0 7 = baseNetworkName (fun _ _ => 33) 0 7 := by
  have h := C3_base_identifier (fun _ _ => 33) (fun _ _ => ⟨le_rfl, by norm_num⟩) 0 [7] [7]
    (by decide) rfl
  exact ⟨h.1, h.2.1 7 rfl, h.2.2 7 7 rfl rfl⟩

/-! ## Claim C4 -/

/-- C4: when the generated base identifier is already in the name set, the
namer returns the base with an increasing numeric suffix starting at 0 —
precisely, the least suffix `k` such that `base ++ k` is free, every
smaller suffix being taken — and records the result.  In particular, in the
scenario with seed 42 and fingerprint checksum 7 for both endpoints X and
Y, X receives the base name and Y receives X's base name with a `0` suffix
appended, for every generator. -/
theorem C4_collision_suffix (rng : ℤ → ℕ → ℕ) (seed : ℤ) (networkNames : List String)
    (data : List ℕ) (sum : ℕ) (hck : checksum data = some sum)
    (hcol : baseNetworkName rng seed sum ∈ networkNames) :
    (∃ k, (∀ j, j < k → baseNetworkName rng seed sum ++ Nat.repr j ∈ networkNames) ∧
      baseNetworkName rng seed sum ++ Nat.repr k ∉ networkNames ∧
      generateNetworkName rng seed networkNames data =
        some (baseNetworkName rng seed sum ++ Nat.repr k,
          (baseNetworkName rng seed sum ++ Nat.repr k) :: networkNames)) ∧
    (∀ rngS : ℤ → ℕ → ℕ,
      generateNetworkName rngS 42 [] [7] =
        some (baseNetworkName rngS 42 7, [baseNetworkName rngS 42 7]) ∧
      generateNetworkName rngS 42 [baseNetworkName rngS 42 7] [7] =
        some (baseNetworkName rngS 42 7 ++ "0",
          [baseNetworkName rngS 42 7 ++ "0", baseNetworkName rngS 42 7])) := by
  constructor
  · obtain ⟨k, hall, hfree, heq⟩ := collisionLoop_least networkNames
      (baseNetworkName rng seed sum)
    refine ⟨k, hall, hfree, ?_⟩
    rw [generateNetworkName_some rng seed networkNames data sum hck, if_pos hcol, heq]
  · intro rngS
    constructor
    · rw [generateNetworkName_some rngS 42 [] [7] 7 rfl,
        if_neg (List.not_mem_nil (baseNetworkName rngS 42 7))]
    · have hne : baseNetworkName rngS 42 7 ++ Nat.repr 0 ∉ [baseNetworkName rngS 42 7] := by
        rw [List.mem_singleton]
        intro hc
        have := congrArg String.length hc
        rw [String.length_append] at this
        have h0 : (Nat.repr 0).length = 1 := rfl
        omega
      have hloop := collisionLoop_eq [baseNetworkName rngS 42 7] (baseNetworkName rngS 42 7)
        2 0 0 le_rfl (by omega) (fun j hj1 hj2 => absurd hj2 (by omega)) hne
      rw [generateNetworkName_some rngS 42 [baseNetworkName rngS 42 7] [7] 7 rfl,
        if_pos (List.mem_singleton.2 rfl)]
      rw [List.length_singleton]
      rw [hloop]
      rfl

/-- Witness for C4 with the constant generator: the name set already holds
the base name for seed 0 and checksum 7, and the second derivation gets the
`0` suffix. -/
theorem C4_collision_suffix_witness :
    (∃ k, (∀ j, j < k →
        baseNetworkName (fun _ _ => 33) 0 7 ++ Nat.repr j ∈ [baseNetworkName (fun _ _ => 33) 0 7]) ∧
      baseNetworkName (fun _ _ => 33) 0 7 ++ Nat.repr k ∉ [baseNetworkName (fun _ _ => 33) 0 7] ∧
      generateNetworkName (fun _ _ => 33) 0 [baseNetworkName (fun _ _ => 33) 0 7] [7] =
        some (baseNetworkName (fun _ _ => 33) 0 7 ++ Nat.repr k,
          (baseNetworkName (fun _ _ => 33) 0 7 ++ Nat.repr k)
            :: [baseNetworkName (fun _ _ => 33) 0 7])) ∧
    (∀ rngS : ℤ → ℕ → ℕ,
      generateNetworkName rngS 42 [] [7] =
        some (baseNetworkName rngS 42 7, [baseNetworkName rngS 42 7]) ∧
      generateNetworkName rngS 42 [baseNetworkName rngS 42 7] [7] =
        some (baseNetworkName rngS 42 7 ++ "0",
          [baseNetworkName rngS 42 7 ++ "0", baseNetworkName rngS 42 7])) :=
  C4_collision_suffix (fun _ _ => 33) 0 [baseNetworkName (fun _ _ => 33) 0 7] [7] 7 rfl
    (List.mem_singleton.2 rfl)

/-! ## Claim C9 -/

/-- C9: a caller-supplied explicit endpoint name becomes the wire
identifier only in Studio; a non-Studio run computes the same identifier
whether or not a name was supplied (the supplied name is ignored and the
identifier is generated from the call-site fingerprint); and the explicit
Studio path returns the prefixed name at once, never consulting or updating
the collision-checking name set. -/
theorem C9_explicit_name_studio_only (rng : ℤ → ℕ → ℕ) (seed : ℤ) :
    (∀ (name : Option String) (fp : List ℕ) (networkNames : List String),
      setupRemoteName rng seed false name fp networkNames
        = setupRemoteName rng seed false none fp networkNames) ∧
    (∀ (n : String) (fp : List ℕ) (networkNames : List String),
      setupRemoteName rng seed true (some n) fp networkNames
        = some ("r/" ++ n, networkNames)) ∧
    (∀ (fp : List ℕ) (networkNames : List String),
      setupRemoteName rng seed true none fp networkNames
        = (generateNetworkName rng seed networkNames fp).map fun p => ("r/" ++ p.1, p.2)) := by
  refine ⟨?_, ?_, ?_⟩
  · intro name fp networkNames
    cases name <;> rfl
  · intro n fp networkNames
    rfl
  · intro fp networkNames
    rfl

/-! ## Claim C10 -/

/-- C10: when the server-side `fire` of a `NetEvent` or an
`UnreliableNetEvent` receives an array of players, the event is fired to
every currently connected player returned by the player service, and the
result does not depend on the array's contents. -/
theorem C10_fire_array_ignores_contents (connectedPlayers ps qs : List ℕ) :
    NetEventServer.fire connectedPlayers (PlayerArg.many ps) = connectedPlayers ∧
    NetEventServer.fire connectedPlayers (PlayerArg.many ps)
      = NetEventServer.fire connectedPlayers (PlayerArg.many qs) ∧
    UnreliableNetEventServer.fire connectedPlayers (PlayerArg.many ps) = connectedPlayers ∧
    UnreliableNetEventServer.fire connectedPlayers (PlayerArg.many ps)
      = UnreliableNetEventServer.fire connectedPlayers (PlayerArg.many qs) :=
  ⟨rfl, rfl, rfl, rfl⟩

end Neutron
